import Mathlib

/-!
Verification of the MoltBrain request-serving core: the line-oriented
message framer, the dual-transport JSON-RPC dispatch loop
(`src/mcp/server.ts`, `MCPServer`), and the bounded query cache
(`src/cache/QueryCache.ts`, `QueryCache`).

Text is modelled as `List Char`.  JavaScript `Map` state is modelled as an
association list in insertion order, matching JS `Map` iteration order.
`JSON.parse` / the handler table are runtime-external and appear as
function parameters of the dispatch definitions.
-/

/-! ## Message framer (from `MCPServer.parseMessages` and the stdio loop) -/

/-- Prepend a character to the first segment of a split result. -/
def consHead (c : Char) : List (List Char) → List (List Char)
  | [] => [[c]]
  | r :: rs => (c :: r) :: rs

/-- JavaScript `str.split(sep)` for a one-character separator, on `List Char`.
`"".split(sep)` is `[""]`, and a trailing separator yields a trailing `""`. -/
def jsSplit (sep : Char) : List Char → List (List Char)
  | [] => [[]]
  | c :: cs => if c = sep then [] :: jsSplit sep cs else consHead c (jsSplit sep cs)

/-- Whitespace characters stripped by JavaScript `String.prototype.trim`
(the ASCII ones; the framer only ever splits on these boundaries). -/
def isJsWhitespace (c : Char) : Bool :=
  c = ' ' || c = '\t' || c = '\n' || c = '\r' || c = '\x0b' || c = '\x0c'

/-- JavaScript `str.trim()` on `List Char`: drop whitespace from both ends. -/
def jsTrim (s : List Char) : List Char :=
  ((s.dropWhile isJsWhitespace).reverse.dropWhile isJsWhitespace).reverse

/-- `MCPServer.parseMessages` (server.ts lines 109-124): split the buffer on
newline, keep the last segment (`lines.pop() || ''`) as the remainder, and
emit every other segment trimmed, discarding empty ones. -/
def parseMessages (buffer : List Char) : List (List Char) × List Char :=
  let lines := jsSplit '\n' buffer
  let remaining := lines.getLastD []
  let parsed := (lines.dropLast.map jsTrim).filter (fun t => !t.isEmpty)
  (parsed, remaining)

/-- One framer step: concatenate the retained remainder with the new chunk
and run `parseMessages` (server.ts line 74/77-78, and the stdio loop). -/
def framerFeed (rem chunk : List Char) : List (List Char) × List Char :=
  parseMessages (rem ++ chunk)

/-- Feed a sequence of chunks through the framer starting from an empty
remainder, accumulating the emitted lines in order. -/
def framerRun (chunks : List (List Char)) : List (List Char) × List Char :=
  chunks.foldl
    (fun acc chunk =>
      let r := framerFeed acc.2 chunk
      (acc.1 ++ r.1, r.2))
    ([], [])

/-- The non-empty trimmed newline-delimited lines of a whole text: split on
newline, drop the trailing (non newline-terminated) segment, trim each line,
discard empty ones. -/
def linesOf (text : List Char) : List (List Char) :=
  ((jsSplit '\n' text).dropLast.map jsTrim).filter (fun t => !t.isEmpty)

/-! ## JSON-RPC dispatch (from `MCPServer.handleConnection` and
`MCPServer.startStdio`)

`JSON.parse` and the handler table (`src/mcp/handlers.ts`, not part of the
verified sources) are runtime-external: they appear as function parameters
`parse` and `handler`.  A handler that throws is a handler returning
`Except.error`. -/

/-- Modelled from the spec: the JSON-RPC correlation token (`id` field) of
`src/mcp/types.ts`, which is not among the verified sources.  Per §3 it is
any JSON scalar or null. -/
inductive JsonId where
  | null : JsonId
  | num : Int → JsonId
  | str : List Char → JsonId
deriving DecidableEq

/-- Modelled from the spec: the error member of a Response
(`{code, message}`), `src/mcp/types.ts` not being among the verified
sources. -/
structure MCPError where
  code : Int
  message : List Char
deriving DecidableEq

/-- Modelled from the spec: the Response shape of §3/§6
(`{jsonrpc, id, result}` or `{jsonrpc, id, error}`), `src/mcp/types.ts` not
being among the verified sources.  `α` is the opaque result payload. -/
structure MCPResponse (α : Type) where
  jsonrpc : List Char
  id : JsonId
  result? : Option α
  error? : Option MCPError
deriving DecidableEq

/-- Modelled from the spec: the Request shape of §3
(`{jsonrpc, id, method, params}`), `src/mcp/types.ts` not being among the
verified sources.  A Notification is a request-shaped message whose `id?`
is `none`.  `π` is the opaque params payload. -/
structure MCPRequest (π : Type) where
  jsonrpc : List Char
  id? : Option JsonId
  method : List Char
  params : π
deriving DecidableEq

/-- Modelled from the spec: `MCPErrorCodes.PARSE_ERROR` of
`src/mcp/types.ts` (not among the verified sources); the standard JSON-RPC
parse-error code.  Only its identity matters to the theorems below. -/
def MCPErrorCodes.PARSE_ERROR : Int := -32700

/-- The error Response built in the catch branch of both transports
(server.ts lines 86-93 and 148-155): `id: null`, code `PARSE_ERROR`,
message `Invalid JSON`. -/
def parseErrorResponse (α : Type) : MCPResponse α :=
  ⟨"2.0".toList, JsonId.null, none,
    some ⟨MCPErrorCodes.PARSE_ERROR, "Invalid JSON".toList⟩⟩

/-- Per-message handling of the socket transport (server.ts lines 80-96):
`try` parse the message, invoke the handler, write its response; any
failure (parse failure or handler throw) lands in the single `catch`
branch, which writes `parseErrorResponse`. -/
def socketHandleMessage {ε α Req : Type} (handler : Req → Except ε (MCPResponse α))
    (parse : List Char → Option Req) (message : List Char) : MCPResponse α :=
  match parse message with
  | some request =>
    match handler request with
    | Except.ok response => response
    | Except.error _ => parseErrorResponse α
  | none => parseErrorResponse α

/-- Per-message handling of the stdio transport (server.ts lines 143-157):
textually the same try/catch as the socket transport. -/
def stdioHandleMessage {ε α Req : Type} (handler : Req → Except ε (MCPResponse α))
    (parse : List Char → Option Req) (message : List Char) : MCPResponse α :=
  match parse message with
  | some request =>
    match handler request with
    | Except.ok response => response
    | Except.error _ => parseErrorResponse α
  | none => parseErrorResponse α

/-- One inbound chunk on a socket connection (server.ts lines 73-97):
append the chunk to the buffer, run `parseMessages`, dispatch every parsed
message in order, keep the remainder.  Returns the written responses and
the new buffer. -/
def socketOnData {ε α Req : Type} (handler : Req → Except ε (MCPResponse α))
    (parse : List Char → Option Req) (state chunk : List Char) :
    List (MCPResponse α) × List Char :=
  let buffer := state ++ chunk
  let messages := parseMessages buffer
  (messages.1.map (socketHandleMessage handler parse), messages.2)

/-- One inbound chunk on the stdio transport (server.ts lines 133-159):
append to the buffer, split on newline, keep the last segment
(`lines.pop() || ''`) as the new buffer, and for each other line skip it
when its trim is empty, otherwise dispatch it. -/
def stdioOnData {ε α Req : Type} (handler : Req → Except ε (MCPResponse α))
    (parse : List Char → Option Req) (state chunk : List Char) :
    List (MCPResponse α) × List Char :=
  let buffer := state ++ chunk
  let lines := jsSplit '\n' buffer
  let newBuffer := lines.getLastD []
  let out := lines.dropLast.filterMap (fun line =>
    let trimmed := jsTrim line
    if trimmed.isEmpty then none
    else some (stdioHandleMessage handler parse trimmed))
  (out, newBuffer)

/-- Feed a sequence of chunks through one socket connection, collecting the
response lines in order. -/
def socketRun {ε α Req : Type} (handler : Req → Except ε (MCPResponse α))
    (parse : List Char → Option Req) (chunks : List (List Char)) :
    List (MCPResponse α) × List Char :=
  chunks.foldl
    (fun acc chunk =>
      let r := socketOnData handler parse acc.2 chunk
      (acc.1 ++ r.1, r.2))
    ([], [])

/-- Feed a sequence of chunks through the stdio transport, collecting the
response lines in order. -/
def stdioRun {ε α Req : Type} (handler : Req → Except ε (MCPResponse α))
    (parse : List Char → Option Req) (chunks : List (List Char)) :
    List (MCPResponse α) × List Char :=
  chunks.foldl
    (fun acc chunk =>
      let r := stdioOnData handler parse acc.2 chunk
      (acc.1 ++ r.1, r.2))
    ([], [])

/-! ## Query cache (from `src/cache/QueryCache.ts`)

Values live in `Option β`, with `none` playing JavaScript `undefined`.
The `onEvict` callback is side-effect only and does not influence the
stored state, so it is omitted.  `Date.now()` is runtime-external and
appears as an explicit `now` argument. -/

/-- `CacheEntry<T>`: `{data, timestamp, hits}`. -/
structure CacheEntry (α : Type) where
  data : α
  timestamp : Int
  hits : Nat
deriving DecidableEq

/-- The resolved `QueryCacheOptions` after the constructor merges defaults. -/
structure QueryCacheOptions where
  maxSize : Nat
  ttlMs : Int
deriving DecidableEq

/-- Constructor defaults (lines 23-29): 100 entries, 5-minute TTL. -/
def defaultQueryCacheOptions : QueryCacheOptions := ⟨100, 300000⟩

/-- The JS `Map` backing the cache, as an association list in insertion
order (JS `Map` iteration order). -/
abbrev CacheState (α : Type) := List (String × CacheEntry α)

/-- JS `Map.get`. -/
def mapGet {α : Type} (st : CacheState α) (key : String) : Option (CacheEntry α) :=
  (st.find? (fun p => p.1 == key)).map Prod.snd

/-- JS `Map.has`. -/
def mapHas {α : Type} (st : CacheState α) (key : String) : Bool :=
  (mapGet st key).isSome

/-- JS `Map.set`: overwrite in place when the key is present (keeping its
position), append otherwise. -/
def mapSet {α : Type} (st : CacheState α) (key : String) (e : CacheEntry α) :
    CacheState α :=
  if mapHas st key then st.map (fun p => if p.1 == key then (key, e) else p)
  else st ++ [(key, e)]

/-- JS `Map.delete`, which is also `QueryCache.delete` (lines 83-89) up to
the side-effect-only `onEvict` callback. -/
def mapDelete {α : Type} (st : CacheState α) (key : String) : CacheState α :=
  st.filter (fun p => !(p.1 == key))

/-- `QueryCache.isExpired` (lines 181-183):
`Date.now() - entry.timestamp > this.options.ttlMs`. -/
def isExpired {α : Type} (opts : QueryCacheOptions) (now : Int) (e : CacheEntry α) :
    Bool :=
  opts.ttlMs < now - e.timestamp

/-- `QueryCache.get` (lines 34-47): absent gives `undefined`; an expired
entry is deleted and gives `undefined`; otherwise `entry.hits++` and the
stored data is returned. -/
def QueryCache.get {α : Type} (opts : QueryCacheOptions) (now : Int)
    (st : CacheState α) (key : String) : Option α × CacheState α :=
  match mapGet st key with
  | none => (none, st)
  | some entry =>
    if isExpired opts now entry then (none, mapDelete st key)
    else (some entry.data, mapSet st key ⟨entry.data, entry.timestamp, entry.hits + 1⟩)

/-- One iteration of the scan loop of `QueryCache.evictLRU` (lines
187-196): replace the candidate when the entry has strictly fewer hits, or
equal hits and a strictly earlier timestamp
(`!lruEntry || entry.hits < lruEntry.hits ||
(entry.hits === lruEntry.hits && entry.timestamp < lruEntry.timestamp)`);
ties keep the earlier-scanned candidate. -/
def evictScanStep {α : Type} (lru : Option (String × CacheEntry α))
    (p : String × CacheEntry α) : Option (String × CacheEntry α) :=
  match lru with
  | none => some p
  | some q =>
    if p.2.hits < q.2.hits ∨ (p.2.hits = q.2.hits ∧ p.2.timestamp < q.2.timestamp)
    then some p
    else some q

/-- The scan loop of `QueryCache.evictLRU` over the whole map. -/
def evictScan {α : Type} (st : CacheState α) : Option (String × CacheEntry α) :=
  st.foldl evictScanStep none

/-- `QueryCache.evictLRU` (lines 185-201).  The guard is
`if (lruKey) this.delete(lruKey)`: JavaScript truthiness, so an empty
string as the selected key skips the delete exactly like `null` does. -/
def evictLRU {α : Type} (st : CacheState α) : CacheState α :=
  match evictScan st with
  | none => st
  | some q => if q.1 == "" then st else mapDelete st q.1

/-- `QueryCache.set` (lines 52-63): evict once when at capacity and the key
is brand new (`cache.size >= maxSize && !cache.has(key)`), then store
`{data, timestamp: Date.now(), hits: 0}`. -/
def QueryCache.set {α : Type} (opts : QueryCacheOptions) (now : Int)
    (st : CacheState α) (key : String) (data : α) : CacheState α :=
  let st1 :=
    if opts.maxSize ≤ st.length ∧ mapHas st key = false then evictLRU st else st
  mapSet st1 key ⟨data, now, 0⟩

/-- `QueryCache.has` (lines 68-78): like `get` but without the hit-count
increment. -/
def QueryCache.has {α : Type} (opts : QueryCacheOptions) (now : Int)
    (st : CacheState α) (key : String) : Bool × CacheState α :=
  match mapGet st key with
  | none => (false, st)
  | some entry =>
    if isExpired opts now entry then (false, mapDelete st key)
    else (true, st)

/-- `QueryCache.clear` (lines 94-101) up to the side-effect-only callback. -/
def QueryCache.clear {α : Type} (_st : CacheState α) : CacheState α := []

/-- `QueryCache.prune` (lines 170-179): delete every currently-expired
entry, returning the count deleted. -/
def QueryCache.prune {α : Type} (opts : QueryCacheOptions) (now : Int)
    (st : CacheState α) : Nat × CacheState α :=
  st.foldl
    (fun acc p =>
      if isExpired opts now p.2 then (acc.1 + 1, mapDelete acc.2 p.1) else acc)
    (0, st)

/-- `QueryCache.invalidatePattern` (lines 156-165): delete every entry
whose key matches, returning the count; `pattern.test` is modelled by a
boolean predicate on keys. -/
def QueryCache.invalidatePattern {α : Type} (test : String → Bool)
    (st : CacheState α) : Nat × CacheState α :=
  (st.map Prod.fst).foldl
    (fun acc key =>
      if test key then (acc.1 + 1, mapDelete acc.2 key) else acc)
    (0, st)

/-- `QueryCache.getOrSet` (lines 142-151).  The JS value of
`this.get(key)` collapses a missing entry and a stored `undefined` into
`undefined` (`Option.join`); when it is `undefined` the factory runs and
its result is stored.  Returns the produced value, whether the factory was
invoked, and the final state. -/
def QueryCache.getOrSet {β : Type} (opts : QueryCacheOptions) (now : Int)
    (st : CacheState (Option β)) (key : String) (factoryResult : Option β) :
    Option β × Bool × CacheState (Option β) :=
  let g := QueryCache.get opts now st key
  match g.1.join with
  | some v => (some v, false, g.2)
  | none => (factoryResult, true, QueryCache.set opts now g.2 key factoryResult)

/-- One public cache operation, for quantifying over operation sequences.
`now` is the `Date.now()` observed during the call; a `RegExp` is modelled
by its boolean test; `factoryResult` is the value the factory resolves
with. -/
inductive CacheOp (β : Type) where
  | get (now : Int) (key : String)
  | set (now : Int) (key : String) (data : Option β)
  | has (now : Int) (key : String)
  | del (key : String)
  | clear
  | prune (now : Int)
  | invalidate (test : String → Bool)
  | getOrSet (now : Int) (key : String) (factoryResult : Option β)

/-- State transition of one public cache operation. -/
def cacheStep {β : Type} (opts : QueryCacheOptions) :
    CacheOp β → CacheState (Option β) → CacheState (Option β)
  | CacheOp.get now key, st => (QueryCache.get opts now st key).2
  | CacheOp.set now key data, st => QueryCache.set opts now st key data
  | CacheOp.has now key, st => (QueryCache.has opts now st key).2
  | CacheOp.del key, st => mapDelete st key
  | CacheOp.clear, st => QueryCache.clear st
  | CacheOp.prune now, st => (QueryCache.prune opts now st).2
  | CacheOp.invalidate test, st => (QueryCache.invalidatePattern test st).2
  | CacheOp.getOrSet now key f, st => (QueryCache.getOrSet opts now st key f).2.2

/-- Run a sequence of cache operations from the empty cache of a fresh
constructor. -/
def cacheRun {β : Type} (opts : QueryCacheOptions) (ops : List (CacheOp β)) :
    CacheState (Option β) :=
  ops.foldl (fun st op => cacheStep opts op st) []

/-- The ordering the eviction scan minimises: fewer hits first, and among
equal hit counts, earlier insertion timestamp first. -/
def entryLexLE {α : Type} (q p : CacheEntry α) : Prop :=
  q.hits < p.hits ∨ (q.hits = p.hits ∧ q.timestamp ≤ p.timestamp)

/-- Every key stored in the cache state is a non-empty string. -/
def stateKeysOk {α : Type} (st : CacheState α) : Prop :=
  ∀ p ∈ st, p.1 ≠ ""

/-- An operation never inserts under the empty-string key. -/
def opKeysOk {β : Type} : CacheOp β → Prop
  | CacheOp.set _ key _ => key ≠ ""
  | CacheOp.getOrSet _ key _ => key ≠ ""
  | _ => True

/-- Merge a prefix into the first segment of a split result. -/
def consHeadList (pre : List Char) : List (List Char) → List (List Char)
  | [] => [pre]
  | r :: rs => (pre ++ r) :: rs

lemma jsSplit_ne_nil (sep : Char) (xs : List Char) : jsSplit sep xs ≠ [] := by
  induction xs with
  | nil => simp [jsSplit]
  | cons c cs ih =>
    simp only [jsSplit]
    split
    · exact List.cons_ne_nil _ _
    · cases h : jsSplit sep cs with
      | nil => simp [consHead]
      | cons r rs => simp [consHead]

lemma consHead_consHeadList (c : Char) (pre : List Char) (l : List (List Char)) :
    consHead c (consHeadList pre l) = consHeadList (c :: pre) l := by
  cases l <;> simp [consHead, consHeadList]

lemma consHeadList_ne_nil (pre : List Char) (l : List (List Char)) :
    consHeadList pre l ≠ [] := by
  cases l <;> simp [consHeadList]

lemma consHeadList_nil_left (l : List (List Char)) (h : l ≠ []) :
    consHeadList [] l = l := by
  cases l with
  | nil => exact absurd rfl h
  | cons r rs => simp [consHeadList]

lemma jsSplit_append (sep : Char) (a b : List Char) :
    jsSplit sep (a ++ b) =
      (jsSplit sep a).dropLast ++
        consHeadList ((jsSplit sep a).getLastD []) (jsSplit sep b) := by
  induction a with
  | nil =>
    have h := consHeadList_nil_left (jsSplit sep b) (jsSplit_ne_nil sep b)
    simp [jsSplit, h]
  | cons c cs ih =>
    simp only [List.cons_append, jsSplit, List.append_eq]
    by_cases hc : c = sep
    · rw [if_pos hc, if_pos hc, ih]
      cases hS : jsSplit sep cs with
      | nil => exact absurd hS (jsSplit_ne_nil sep cs)
      | cons s0 S => simp [List.getLastD_cons]
    · rw [if_neg hc, if_neg hc, ih]
      cases hS : jsSplit sep cs with
      | nil => exact absurd hS (jsSplit_ne_nil sep cs)
      | cons s0 S =>
        cases S with
        | nil =>
          show consHead c (consHeadList s0 (jsSplit sep b)) =
            consHeadList (c :: s0) (jsSplit sep b)
          exact consHead_consHeadList c s0 _
        | cons s1 S' => simp [consHead, List.getLastD_cons]

lemma jsSplit_pieces_no_sep (sep : Char) (xs : List Char) :
    ∀ piece ∈ jsSplit sep xs, sep ∉ piece := by
  induction xs with
  | nil => simp [jsSplit]
  | cons c cs ih =>
    simp only [jsSplit]
    by_cases hc : c = sep
    · rw [if_pos hc]
      intro piece hp
      rcases List.mem_cons.1 hp with h | h
      · simp [h]
      · exact ih piece h
    · rw [if_neg hc]
      cases hS : jsSplit sep cs with
      | nil => exact absurd hS (jsSplit_ne_nil sep cs)
      | cons s0 S =>
        intro piece hp
        rcases List.mem_cons.1 hp with h | h
        · subst h
          intro hmem
          rcases List.mem_cons.1 hmem with h' | h'
          · exact hc h'.symm
          · exact ih s0 (hS ▸ List.mem_cons_self _ _) h'
        · exact ih piece (hS ▸ List.mem_cons_of_mem _ h)

lemma getLastD_mem_of_ne_nil {α : Type} : ∀ (l : List α) (d : α), l ≠ [] → l.getLastD d ∈ l
  | [], _, h => absurd rfl h
  | [a], d, _ => by simp [List.getLastD]
  | a :: b :: l, d, _ => by
    rw [List.getLastD_cons]
    exact List.mem_cons_of_mem _ (getLastD_mem_of_ne_nil (b :: l) a (by simp))

lemma jsSplit_getLastD_no_sep (sep : Char) (xs : List Char) :
    sep ∉ (jsSplit sep xs).getLastD [] :=
  jsSplit_pieces_no_sep sep xs _
    (getLastD_mem_of_ne_nil (jsSplit sep xs) [] (jsSplit_ne_nil sep xs))

lemma jsSplit_of_no_sep (sep : Char) (r : List Char) (h : sep ∉ r) :
    jsSplit sep r = [r] := by
  induction r with
  | nil => rfl
  | cons c cs ih =>
    have hc : c ≠ sep := fun he => h (he ▸ List.mem_cons_self _ _)
    have hcs : sep ∉ cs := fun hm => h (List.mem_cons_of_mem _ hm)
    simp [jsSplit, hc, ih hcs, consHead]

lemma jsSplit_no_sep_append (sep : Char) (r b : List Char) (h : sep ∉ r) :
    jsSplit sep (r ++ b) = consHeadList r (jsSplit sep b) := by
  rw [jsSplit_append, jsSplit_of_no_sep sep r h]
  simp

lemma getLastD_append_right {α : Type} (X Y : List α) (d : α) (h : Y ≠ []) :
    (X ++ Y).getLastD d = Y.getLastD d := by
  rw [List.getLastD_eq_getLast?, List.getLastD_eq_getLast?, List.getLast?_append]
  cases hY : Y.getLast? with
  | none => exact absurd (List.getLast?_eq_none_iff.1 hY) h
  | some y => rfl

lemma parseMessages_fst (buffer : List Char) :
    (parseMessages buffer).1 =
      ((jsSplit '\n' buffer).dropLast.map jsTrim).filter (fun t => !t.isEmpty) := rfl

lemma parseMessages_snd (buffer : List Char) :
    (parseMessages buffer).2 = (jsSplit '\n' buffer).getLastD [] := rfl

lemma parseMessages_step (t c : List Char) :
    (parseMessages (t ++ c)).1 =
      (parseMessages t).1 ++ (parseMessages ((parseMessages t).2 ++ c)).1
    ∧ (parseMessages (t ++ c)).2 = (parseMessages ((parseMessages t).2 ++ c)).2 := by
  have hr : '\n' ∉ (jsSplit '\n' t).getLastD [] := jsSplit_getLastD_no_sep _ _
  have h1 : jsSplit '\n' ((parseMessages t).2 ++ c) =
      consHeadList ((jsSplit '\n' t).getLastD []) (jsSplit '\n' c) := by
    rw [parseMessages_snd]
    exact jsSplit_no_sep_append _ _ _ hr
  have h2 : jsSplit '\n' (t ++ c) =
      (jsSplit '\n' t).dropLast ++
        consHeadList ((jsSplit '\n' t).getLastD []) (jsSplit '\n' c) :=
    jsSplit_append _ _ _
  constructor
  · rw [parseMessages_fst, parseMessages_fst, parseMessages_fst, h1, h2]
    rw [List.dropLast_append_of_ne_nil _ (consHeadList_ne_nil _ _)]
    rw [List.map_append, List.filter_append]
  · rw [parseMessages_snd, parseMessages_snd, h1, h2]
    exact getLastD_append_right _ _ _ (consHeadList_ne_nil _ _)

lemma framerRun_eq (chunks : List (List Char)) :
    framerRun chunks = parseMessages chunks.flatten := by
  induction chunks using List.reverseRecOn with
  | nil => rfl
  | append_singleton cs c ih =>
    have hstep := parseMessages_step cs.flatten c
    rw [framerRun, List.foldl_append]
    simp only [List.foldl_cons, List.foldl_nil]
    rw [← framerRun, ih]
    rw [List.flatten_append]
    simp only [List.flatten_cons, List.flatten_nil, List.append_nil]
    rw [Prod.ext_iff]
    exact ⟨(hstep.1).symm, (hstep.2).symm⟩

lemma map_filter_eq_filterMap {γ : Type} (f : List Char → γ) (l : List (List Char)) :
    ((l.map jsTrim).filter (fun t => !t.isEmpty)).map f
      = l.filterMap (fun line =>
          let t := jsTrim line
          if t.isEmpty then none else some (f t)) := by
  induction l with
  | nil => rfl
  | cons x l ih =>
    simp only [List.map_cons, List.filter_cons, List.filterMap_cons]
    by_cases hx : (jsTrim x).isEmpty
    · simp [hx, ih]
    · simp [hx, ih]

lemma socketOnData_eq_stdioOnData {ε α Req : Type}
    (handler : Req → Except ε (MCPResponse α)) (parse : List Char → Option Req)
    (state chunk : List Char) :
    socketOnData handler parse state chunk = stdioOnData handler parse state chunk := by
  have h1 : (socketOnData handler parse state chunk).1
      = (stdioOnData handler parse state chunk).1 := by
    show ((parseMessages (state ++ chunk)).1).map (socketHandleMessage handler parse)
      = ((jsSplit '\n' (state ++ chunk)).dropLast).filterMap (fun line =>
          let t := jsTrim line
          if t.isEmpty then none else some (stdioHandleMessage handler parse t))
    rw [parseMessages_fst]
    exact map_filter_eq_filterMap _ _
  have h2 : (socketOnData handler parse state chunk).2
      = (stdioOnData handler parse state chunk).2 := rfl
  exact Prod.ext h1 h2

lemma socketRun_eq_stdioRun {ε α Req : Type}
    (handler : Req → Except ε (MCPResponse α)) (parse : List Char → Option Req)
    (chunks : List (List Char)) :
    socketRun handler parse chunks = stdioRun handler parse chunks := by
  suffices h : ∀ (acc : List (MCPResponse α) × List Char),
      chunks.foldl
        (fun acc chunk =>
          let r := socketOnData handler parse acc.2 chunk
          (acc.1 ++ r.1, r.2)) acc
      = chunks.foldl
        (fun acc chunk =>
          let r := stdioOnData handler parse acc.2 chunk
          (acc.1 ++ r.1, r.2)) acc by
    exact h ([], [])
  induction chunks with
  | nil => intro acc; rfl
  | cons c cs ih =>
    intro acc
    simp only [List.foldl_cons]
    rw [socketOnData_eq_stdioOnData]
    exact ih _

lemma socketRun_snd_eq_framer {ε α Req : Type}
    (handler : Req → Except ε (MCPResponse α)) (parse : List Char → Option Req)
    (chunks : List (List Char)) :
    (socketRun handler parse chunks).2 = (framerRun chunks).2 := by
  suffices h : ∀ (st : List Char) (acc1 : List (MCPResponse α))
      (acc2 : List (List Char)),
      (chunks.foldl
        (fun acc chunk =>
          let r := socketOnData handler parse acc.2 chunk
          (acc.1 ++ r.1, r.2)) (acc1, st)).2
      = (chunks.foldl
        (fun acc chunk =>
          let r := framerFeed acc.2 chunk
          (acc.1 ++ r.1, r.2)) (acc2, st)).2 by
    exact h [] [] []
  induction chunks with
  | nil => intro st acc1 acc2; rfl
  | cons c cs ih =>
    intro st acc1 acc2
    simp only [List.foldl_cons]
    exact ih _ _ _

/-- C1: for any text and any way of splitting it into chunks fed in order
to the message framer from an empty remainder, the ordered sequence of
emitted non-empty trimmed lines is the same for all splittings and equals
the non-empty trimmed newline-delimited lines of the original text. -/
theorem framer_chunking_invariance (chunks : List (List Char)) :
    (framerRun chunks).1 = linesOf chunks.flatten := by
  rw [framerRun_eq]
  rfl

/-- C7: for the same sequence of inbound chunks and the same (pure) parse
function and handler set, the socket transport's per-connection pipeline
and the stdio transport's pipeline produce the same sequence of response
lines and the same final buffer. -/
theorem transport_equivalence {ε α Req : Type}
    (handler : Req → Except ε (MCPResponse α)) (parse : List Char → Option Req)
    (chunks : List (List Char)) :
    socketRun handler parse chunks = stdioRun handler parse chunks :=
  socketRun_eq_stdioRun handler parse chunks

/-- C8: after any sequence of chunks, the framer's carried remainder (of
the bare framer, of a socket connection, and of the stdio loop) never
contains the newline line terminator. -/
theorem framer_remainder_no_newline {ε α Req : Type}
    (handler : Req → Except ε (MCPResponse α)) (parse : List Char → Option Req)
    (chunks : List (List Char)) :
    '\n' ∉ (framerRun chunks).2 ∧ '\n' ∉ (socketRun handler parse chunks).2 ∧
      '\n' ∉ (stdioRun handler parse chunks).2 := by
  have hf : '\n' ∉ (framerRun chunks).2 := by
    rw [framerRun_eq, parseMessages_snd]
    exact jsSplit_getLastD_no_sep '\n' chunks.flatten
  have hs : '\n' ∉ (socketRun handler parse chunks).2 := by
    rw [socketRun_snd_eq_framer]
    exact hf
  have hd : '\n' ∉ (stdioRun handler parse chunks).2 := by
    rw [← socketRun_eq_stdioRun, socketRun_snd_eq_framer]
    exact hf
  exact ⟨hf, hs, hd⟩

lemma parseMessages_single_line (raw : List Char) (hnl : '\n' ∉ raw) :
    parseMessages (raw ++ ['\n'])
      = (if (jsTrim raw).isEmpty then [] else [jsTrim raw], []) := by
  have hsplit : jsSplit '\n' (raw ++ ['\n']) = [raw, []] := by
    rw [jsSplit_no_sep_append _ _ _ hnl]
    simp [jsSplit, consHeadList]
  unfold parseMessages
  rw [hsplit]
  by_cases h : (jsTrim raw).isEmpty <;> simp [h, List.getLastD_cons]

lemma socketOnData_single {ε α Req : Type}
    (handler : Req → Except ε (MCPResponse α)) (parse : List Char → Option Req)
    (raw : List Char) (hnl : '\n' ∉ raw) (hne : (jsTrim raw).isEmpty = false) :
    socketOnData handler parse [] (raw ++ ['\n'])
      = ([socketHandleMessage handler parse (jsTrim raw)], []) := by
  show ((parseMessages ([] ++ (raw ++ ['\n']))).1.map (socketHandleMessage handler parse),
      (parseMessages ([] ++ (raw ++ ['\n']))).2)
    = ([socketHandleMessage handler parse (jsTrim raw)], [])
  rw [List.nil_append, parseMessages_single_line raw hnl, hne]
  simp

/-- C5: a raw line whose trimmed text does not parse as JSON yields, on
both transports, exactly one error Response with `id` null and the
parse-error code; the failure is absorbed by the catch branch, never
rethrown (the per-chunk processing is a total function). -/
theorem parse_failure_yields_null_id_error {ε α Req : Type}
    (handler : Req → Except ε (MCPResponse α)) (parse : List Char → Option Req)
    (raw : List Char) (hnl : '\n' ∉ raw) (hne : (jsTrim raw).isEmpty = false)
    (hparse : parse (jsTrim raw) = none) :
    socketOnData handler parse [] (raw ++ ['\n']) = ([parseErrorResponse α], [])
    ∧ stdioOnData handler parse [] (raw ++ ['\n']) = ([parseErrorResponse α], [])
    ∧ (parseErrorResponse α).id = JsonId.null
    ∧ (parseErrorResponse α).error?
        = some ⟨MCPErrorCodes.PARSE_ERROR, "Invalid JSON".toList⟩ := by
  have hmsg : socketHandleMessage handler parse (jsTrim raw) = parseErrorResponse α := by
    unfold socketHandleMessage
    rw [hparse]
  have hsock : socketOnData handler parse [] (raw ++ ['\n'])
      = ([parseErrorResponse α], []) := by
    rw [socketOnData_single handler parse raw hnl hne, hmsg]
  refine ⟨hsock, ?_, rfl, rfl⟩
  rw [← socketOnData_eq_stdioOnData]
  exact hsock

/-- Witness for C5 at the spec's own example `"{not json"`, with a parse
function rejecting it and an arbitrary handler. -/
theorem parse_failure_yields_null_id_error_witness :
    socketOnData (fun _ : Unit => (Except.error () : Except Unit (MCPResponse Unit)))
        (fun _ => none) [] ("\x7bnot json".toList ++ ['\n'])
      = ([parseErrorResponse Unit], [])
    ∧ stdioOnData (fun _ : Unit => (Except.error () : Except Unit (MCPResponse Unit)))
        (fun _ => none) [] ("\x7bnot json".toList ++ ['\n'])
      = ([parseErrorResponse Unit], [])
    ∧ (parseErrorResponse Unit).id = JsonId.null
    ∧ (parseErrorResponse Unit).error?
        = some ⟨MCPErrorCodes.PARSE_ERROR, "Invalid JSON".toList⟩ :=
  parse_failure_yields_null_id_error _ _ _ (by decide) (by decide) rfl

/-- C4 counterexample: the parse function returns a request whose `id` is
`7` and the handler throws, yet the dispatched response carries `id` null
— not the parsed request's `id` as the claim states. -/
theorem handler_throw_keeps_request_id_counterexample :
    (fun _ : List Char =>
        some (⟨"2.0".toList, some (JsonId.num 7), "echo".toList, ()⟩ : MCPRequest Unit))
      "line".toList
      = some ⟨"2.0".toList, some (JsonId.num 7), "echo".toList, ()⟩
    ∧ (socketHandleMessage
        (fun _ : MCPRequest Unit => (Except.error () : Except Unit (MCPResponse Unit)))
        (fun _ =>
          some (⟨"2.0".toList, some (JsonId.num 7), "echo".toList, ()⟩ : MCPRequest Unit))
        "line".toList).id = JsonId.null
    ∧ JsonId.null ≠ JsonId.num 7 :=
  ⟨rfl, rfl, by decide⟩

/-- C4 (amended): when the handler invocation throws, both transports
produce the same structured error Response as for a parse failure —
`id` null, code `PARSE_ERROR`, message `Invalid JSON` — regardless of the
parsed request's `id`. -/
theorem handler_throw_yields_parse_error {ε α Req : Type}
    (handler : Req → Except ε (MCPResponse α)) (parse : List Char → Option Req)
    (message : List Char) (req : Req) (e : ε)
    (hparse : parse message = some req) (hthrow : handler req = Except.error e) :
    socketHandleMessage handler parse message = parseErrorResponse α
    ∧ stdioHandleMessage handler parse message = parseErrorResponse α
    ∧ (parseErrorResponse α).id = JsonId.null
    ∧ (parseErrorResponse α).error?
        = some ⟨MCPErrorCodes.PARSE_ERROR, "Invalid JSON".toList⟩ := by
  have h1 : socketHandleMessage handler parse message = parseErrorResponse α := by
    unfold socketHandleMessage
    rw [hparse]
    simp [hthrow]
  have h2 : stdioHandleMessage handler parse message = parseErrorResponse α := by
    unfold stdioHandleMessage
    rw [hparse]
    simp [hthrow]
  exact ⟨h1, h2, rfl, rfl⟩

/-- Witness for the amended C4 at a concrete throwing handler. -/
theorem handler_throw_yields_parse_error_witness :
    socketHandleMessage
        (fun _ : MCPRequest Unit => (Except.error () : Except Unit (MCPResponse Unit)))
        (fun _ =>
          some (⟨"2.0".toList, some (JsonId.num 42), "m".toList, ()⟩ : MCPRequest Unit))
        "req".toList
      = parseErrorResponse Unit
    ∧ stdioHandleMessage
        (fun _ : MCPRequest Unit => (Except.error () : Except Unit (MCPResponse Unit)))
        (fun _ =>
          some (⟨"2.0".toList, some (JsonId.num 42), "m".toList, ()⟩ : MCPRequest Unit))
        "req".toList
      = parseErrorResponse Unit
    ∧ (parseErrorResponse Unit).id = JsonId.null
    ∧ (parseErrorResponse Unit).error?
        = some ⟨MCPErrorCodes.PARSE_ERROR, "Invalid JSON".toList⟩ :=
  handler_throw_yields_parse_error _ _ _ _ () rfl rfl

/-- C9 counterexample: a message parsing as a request-shaped value with no
`id` (a Notification) still produces one response line on the socket
transport's output — not zero as the claim states. -/
theorem notification_no_response_counterexample :
    ((⟨"2.0".toList, none, "log".toList, ()⟩ : MCPRequest Unit)).id? = none
    ∧ (socketOnData
        (fun _ : MCPRequest Unit =>
          (Except.ok ⟨"2.0".toList, JsonId.null, none, none⟩
            : Except Unit (MCPResponse Unit)))
        (fun _ => some (⟨"2.0".toList, none, "log".toList, ()⟩ : MCPRequest Unit))
        [] "msg\n".toList).1.length = 1 :=
  ⟨rfl, rfl⟩

/-- C9 (amended): a successfully parsed request-shaped message with no
`id` is not special-cased: like any parsed message it produces exactly one
response line on either transport (the handler's response, or the error
response if the handler throws). -/
theorem notification_still_gets_response {ε α π : Type}
    (handler : MCPRequest π → Except ε (MCPResponse α))
    (parse : List Char → Option (MCPRequest π)) (raw : List Char)
    (req : MCPRequest π) (hparse : parse (jsTrim raw) = some req)
    (hid : req.id? = none) (hnl : '\n' ∉ raw)
    (hne : (jsTrim raw).isEmpty = false) :
    (socketOnData handler parse [] (raw ++ ['\n'])).1.length = 1
    ∧ (stdioOnData handler parse [] (raw ++ ['\n'])).1.length = 1 := by
  have hs : (socketOnData handler parse [] (raw ++ ['\n'])).1.length = 1 := by
    rw [socketOnData_single handler parse raw hnl hne]
    rfl
  refine ⟨hs, ?_⟩
  rw [← socketOnData_eq_stdioOnData]
  exact hs

/-- Witness for the amended C9 at a concrete Notification. -/
theorem notification_still_gets_response_witness :
    (socketOnData
        (fun _ : MCPRequest Unit =>
          (Except.ok ⟨"2.0".toList, JsonId.null, none, none⟩
            : Except Unit (MCPResponse Unit)))
        (fun _ => some (⟨"2.0".toList, none, "log".toList, ()⟩ : MCPRequest Unit))
        [] ("note".toList ++ ['\n'])).1.length = 1
    ∧ (stdioOnData
        (fun _ : MCPRequest Unit =>
          (Except.ok ⟨"2.0".toList, JsonId.null, none, none⟩
            : Except Unit (MCPResponse Unit)))
        (fun _ => some (⟨"2.0".toList, none, "log".toList, ()⟩ : MCPRequest Unit))
        [] ("note".toList ++ ['\n'])).1.length = 1 :=
  notification_still_gets_response _ _ _ _ rfl rfl (by decide) (by decide)

lemma mapGet_mapDelete_self {α : Type} (st : CacheState α) (key : String) :
    mapGet (mapDelete st key) key = none := by
  unfold mapGet mapDelete
  have h : (st.filter (fun p => !(p.1 == key))).find? (fun p => p.1 == key) = none := by
    rw [List.find?_eq_none]
    intro x hx
    have hfx := (List.mem_filter.1 hx).2
    simp only [Bool.not_eq_true'] at hfx
    simp [hfx]
  rw [h]
  rfl

lemma find?_overwrite {α : Type} (st : CacheState α) (key : String)
    (e' : CacheEntry α) (h : (st.find? (fun p => p.1 == key)).isSome) :
    (st.map (fun p => if p.1 == key then (key, e') else p)).find? (fun p => p.1 == key)
      = some (key, e') := by
  induction st with
  | nil => simp [List.find?] at h
  | cons p st ih =>
    by_cases hp : p.1 == key
    · rw [List.map_cons, if_pos hp]
      exact List.find?_cons_of_pos _ (by simp)
    · rw [List.map_cons, if_neg hp]
      have hstep : (p :: st.map (fun p => if p.1 == key then (key, e') else p)).find?
            (fun p => p.1 == key)
          = (st.map (fun p => if p.1 == key then (key, e') else p)).find?
            (fun p => p.1 == key) :=
        List.find?_cons_of_neg _ hp
      have hfind : (p :: st).find? (fun p => p.1 == key)
          = st.find? (fun p => p.1 == key) :=
        List.find?_cons_of_neg _ hp
      have hh : ((p :: st).find? (fun p => p.1 == key)).isSome
          = (st.find? (fun p => p.1 == key)).isSome :=
        congrArg Option.isSome hfind
      rw [hstep]
      exact ih (by rw [← hh]; exact h)

lemma mapGet_mapSet_self {α : Type} (st : CacheState α) (key : String)
    (e e' : CacheEntry α) (h : mapGet st key = some e) :
    mapGet (mapSet st key e') key = some e' := by
  have hhas : mapHas st key = true := by
    unfold mapHas
    rw [h]
    rfl
  have hsome : (st.find? (fun p => p.1 == key)).isSome := by
    unfold mapHas mapGet at hhas
    cases hf : st.find? (fun p => p.1 == key) with
    | none => rw [hf] at hhas; simp at hhas
    | some q => simp [hf]
  unfold mapSet
  rw [if_pos hhas]
  unfold mapGet
  rw [find?_overwrite st key e' hsome]
  rfl

/-- C6: `get` on an entry whose age exceeds the TTL returns absent and
removes the entry (a subsequent `has` is false); `get` on an unexpired
entry returns its stored value and increments its hit count by exactly
one. -/
theorem cache_get_ttl_and_hit {α : Type} (opts : QueryCacheOptions) (now : Int)
    (st : CacheState α) (key : String) :
    (∀ e, mapGet st key = some e → isExpired opts now e = true →
      (QueryCache.get opts now st key).1 = none
      ∧ mapGet (QueryCache.get opts now st key).2 key = none
      ∧ (QueryCache.has opts now (QueryCache.get opts now st key).2 key).1 = false)
    ∧ (∀ e, mapGet st key = some e → isExpired opts now e = false →
      (QueryCache.get opts now st key).1 = some e.data
      ∧ mapGet (QueryCache.get opts now st key).2 key
          = some ⟨e.data, e.timestamp, e.hits + 1⟩) := by
  constructor
  · intro e he hexp
    have hget : QueryCache.get opts now st key = (none, mapDelete st key) := by
      unfold QueryCache.get
      rw [he]
      simp [hexp]
    refine ⟨by rw [hget], ?_, ?_⟩
    · rw [hget]
      exact mapGet_mapDelete_self st key
    · rw [hget]
      unfold QueryCache.has
      rw [mapGet_mapDelete_self st key]
  · intro e he hexp
    have hget : QueryCache.get opts now st key
        = (some e.data, mapSet st key ⟨e.data, e.timestamp, e.hits + 1⟩) := by
      unfold QueryCache.get
      rw [he]
      simp [hexp]
    refine ⟨by rw [hget], ?_⟩
    rw [hget]
    exact mapGet_mapSet_self st key e _ he

/-- Witness for C6: a cache holding `k ↦ (0, inserted at 0, 1 hit)` with a
1000ms TTL, read at `now = 2000` (expired) and at `now = 500`
(unexpired). -/
theorem cache_get_ttl_and_hit_witness :
    ((QueryCache.get ⟨100, 1000⟩ 2000 [("k", ⟨(0 : Nat), 0, 1⟩)] "k").1 = none
      ∧ mapGet (QueryCache.get ⟨100, 1000⟩ 2000 [("k", ⟨(0 : Nat), 0, 1⟩)] "k").2 "k" = none
      ∧ (QueryCache.has ⟨100, 1000⟩ 2000
          (QueryCache.get ⟨100, 1000⟩ 2000 [("k", ⟨(0 : Nat), 0, 1⟩)] "k").2 "k").1 = false)
    ∧ ((QueryCache.get ⟨100, 1000⟩ 500 [("k", ⟨(0 : Nat), 0, 1⟩)] "k").1 = some 0
      ∧ mapGet (QueryCache.get ⟨100, 1000⟩ 500 [("k", ⟨(0 : Nat), 0, 1⟩)] "k").2 "k"
          = some ⟨0, 0, 2⟩) :=
  ⟨(cache_get_ttl_and_hit ⟨100, 1000⟩ 2000 [("k", ⟨(0 : Nat), 0, 1⟩)] "k").1
      ⟨0, 0, 1⟩ rfl rfl,
    (cache_get_ttl_and_hit ⟨100, 1000⟩ 500 [("k", ⟨(0 : Nat), 0, 1⟩)] "k").2
      ⟨0, 0, 1⟩ rfl rfl⟩

/-- C10: a stored `undefined` is indistinguishable from absence at the
`get`/`getOrSet` interface: on an unexpired entry whose stored value is
`undefined`, `get`'s JS value is `undefined`, and `getOrSet` re-invokes the
factory, re-stores its result (with fresh timestamp and zero hits), and
returns it. -/
theorem cache_getOrSet_undefined_reinvokes {β : Type} (opts : QueryCacheOptions)
    (now : Int) (st : CacheState (Option β)) (key : String)
    (factoryResult : Option β) (e : CacheEntry (Option β))
    (he : mapGet st key = some e) (hdata : e.data = none)
    (hexp : isExpired opts now e = false) :
    (QueryCache.get opts now st key).1.join = none
    ∧ (QueryCache.getOrSet opts now st key factoryResult).2.1 = true
    ∧ (QueryCache.getOrSet opts now st key factoryResult).1 = factoryResult
    ∧ mapGet (QueryCache.getOrSet opts now st key factoryResult).2.2 key
        = some ⟨factoryResult, now, 0⟩ := by
  have hget : QueryCache.get opts now st key
      = (some e.data, mapSet st key ⟨e.data, e.timestamp, e.hits + 1⟩) := by
    unfold QueryCache.get
    rw [he]
    simp [hexp]
  have hjoin : (QueryCache.get opts now st key).1.join = none := by
    rw [hget, hdata]
    rfl
  have hmid : mapGet (mapSet st key ⟨e.data, e.timestamp, e.hits + 1⟩) key
      = some ⟨e.data, e.timestamp, e.hits + 1⟩ :=
    mapGet_mapSet_self st key e _ he
  have hors : QueryCache.getOrSet opts now st key factoryResult
      = (factoryResult, true,
          QueryCache.set opts now (mapSet st key ⟨e.data, e.timestamp, e.hits + 1⟩)
            key factoryResult) := by
    unfold QueryCache.getOrSet
    rw [hget, hdata]
    rfl
  have hhasmid : mapHas (mapSet st key ⟨e.data, e.timestamp, e.hits + 1⟩) key = true := by
    unfold mapHas
    rw [hmid]
    rfl
  have hsetskips : QueryCache.set opts now
      (mapSet st key ⟨e.data, e.timestamp, e.hits + 1⟩) key factoryResult
      = mapSet (mapSet st key ⟨e.data, e.timestamp, e.hits + 1⟩) key
          ⟨factoryResult, now, 0⟩ := by
    unfold QueryCache.set
    rw [hhasmid]
    simp
  refine ⟨hjoin, ?_, ?_, ?_⟩
  · rw [hors]
  · rw [hors]
  · rw [hors]
    show mapGet (QueryCache.set opts now
      (mapSet st key ⟨e.data, e.timestamp, e.hits + 1⟩) key factoryResult) key
      = some ⟨factoryResult, now, 0⟩
    rw [hsetskips]
    exact mapGet_mapSet_self _ key _ _ hmid

/-- Witness for C10: a cache holding `k ↦ undefined` (unexpired), with a
factory resolving to `some 3`. -/
theorem cache_getOrSet_undefined_reinvokes_witness :
    (QueryCache.get ⟨100, 1000⟩ 500 [("k", ⟨(none : Option Nat), 0, 0⟩)] "k").1.join = none
    ∧ (QueryCache.getOrSet ⟨100, 1000⟩ 500 [("k", ⟨(none : Option Nat), 0, 0⟩)] "k"
        (some 3)).2.1 = true
    ∧ (QueryCache.getOrSet ⟨100, 1000⟩ 500 [("k", ⟨(none : Option Nat), 0, 0⟩)] "k"
        (some 3)).1 = some 3
    ∧ mapGet (QueryCache.getOrSet ⟨100, 1000⟩ 500 [("k", ⟨(none : Option Nat), 0, 0⟩)] "k"
        (some 3)).2.2 "k" = some ⟨some 3, 500, 0⟩ :=
  cache_getOrSet_undefined_reinvokes ⟨100, 1000⟩ 500
    [("k", ⟨(none : Option Nat), 0, 0⟩)] "k" (some 3) ⟨none, 0, 0⟩ rfl rfl rfl

lemma entryLexLE_refl {α : Type} (e : CacheEntry α) : entryLexLE e e :=
  Or.inr ⟨rfl, le_refl _⟩

lemma entryLexLE_trans {α : Type} {a b c : CacheEntry α}
    (h1 : entryLexLE a b) (h2 : entryLexLE b c) : entryLexLE a c := by
  unfold entryLexLE at *
  omega

lemma entryLexLE_of_strict {α : Type} {p q : CacheEntry α}
    (h : p.hits < q.hits ∨ (p.hits = q.hits ∧ p.timestamp < q.timestamp)) :
    entryLexLE p q := by
  unfold entryLexLE
  omega

lemma entryLexLE_of_not_strict {α : Type} {p q : CacheEntry α}
    (h : ¬(p.hits < q.hits ∨ (p.hits = q.hits ∧ p.timestamp < q.timestamp))) :
    entryLexLE q p := by
  unfold entryLexLE
  omega

lemma evictScan_go {α : Type} (l : List (String × CacheEntry α)) :
    ∀ q : String × CacheEntry α,
      ∃ r, l.foldl evictScanStep (some q) = some r
        ∧ (r = q ∨ r ∈ l) ∧ entryLexLE r.2 q.2 ∧ ∀ p ∈ l, entryLexLE r.2 p.2 := by
  induction l with
  | nil =>
    intro q
    exact ⟨q, rfl, Or.inl rfl, entryLexLE_refl q.2, by simp⟩
  | cons p l ih =>
    intro q
    rw [List.foldl_cons]
    by_cases hc : p.2.hits < q.2.hits ∨ (p.2.hits = q.2.hits ∧ p.2.timestamp < q.2.timestamp)
    · have hstep : evictScanStep (some q) p = some p := by
        unfold evictScanStep
        exact if_pos hc
      rw [hstep]
      obtain ⟨r, hr, hmem, hle, hall⟩ := ih p
      refine ⟨r, hr, ?_, ?_, ?_⟩
      · rcases hmem with h | h
        · exact Or.inr (h ▸ List.mem_cons_self _ _)
        · exact Or.inr (List.mem_cons_of_mem _ h)
      · exact entryLexLE_trans hle (entryLexLE_of_strict hc)
      · intro x hx
        rcases List.mem_cons.1 hx with h | h
        · exact h ▸ hle
        · exact hall x h
    · have hstep : evictScanStep (some q) p = some q := by
        unfold evictScanStep
        exact if_neg hc
      rw [hstep]
      obtain ⟨r, hr, hmem, hle, hall⟩ := ih q
      refine ⟨r, hr, ?_, hle, ?_⟩
      · rcases hmem with h | h
        · exact Or.inl h
        · exact Or.inr (List.mem_cons_of_mem _ h)
      · intro x hx
        rcases List.mem_cons.1 hx with h | h
        · exact h ▸ entryLexLE_trans hle (entryLexLE_of_not_strict hc)
        · exact hall x h

lemma evictScan_spec {α : Type} (st : CacheState α) (hne : st ≠ []) :
    ∃ r, evictScan st = some r ∧ r ∈ st ∧ ∀ p ∈ st, entryLexLE r.2 p.2 := by
  cases st with
  | nil => exact absurd rfl hne
  | cons x rest =>
    obtain ⟨r, hr, hmem, hle, hall⟩ := evictScan_go rest x
    refine ⟨r, ?_, ?_, ?_⟩
    · unfold evictScan
      rw [List.foldl_cons]
      exact hr
    · rcases hmem with h | h
      · exact h ▸ List.mem_cons_self _ _
      · exact List.mem_cons_of_mem _ h
    · intro p hp
      rcases List.mem_cons.1 hp with h | h
      · exact h ▸ hle
      · exact hall p h

/-- C2 counterexample: a full cache whose sole (hence fewest-hits) entry
has the empty string as key.  Inserting the brand-new key `x` at capacity
evicts nothing — `if (lruKey)` treats the empty-string key like `null` —
so the selected entry survives and the store grows past capacity. -/
theorem eviction_policy_counterexample :
    mapHas [("", ⟨(1 : Nat), 0, 0⟩)] "x" = false
    ∧ ([("", ⟨(1 : Nat), 0, 0⟩)] : CacheState Nat).length = 1
    ∧ QueryCache.set ⟨1, 1000⟩ 5 [("", ⟨(1 : Nat), 0, 0⟩)] "x" 2
        = [("", ⟨1, 0, 0⟩), ("x", ⟨2, 5, 0⟩)]
    ∧ mapHas (QueryCache.set ⟨1, 1000⟩ 5 [("", ⟨(1 : Nat), 0, 0⟩)] "x" 2) "" = true :=
  ⟨rfl, rfl, rfl, rfl⟩

/-- C2 (amended): on a state whose keys are all non-empty, inserting a
brand-new key at capacity first evicts an entry that has the fewest hits
of all entries and, among entries tied at that hit count, the earliest
insertion timestamp; overwriting an existing key, or inserting below
capacity, never evicts. -/
theorem eviction_policy {α : Type} (opts : QueryCacheOptions) (now : Int)
    (st : CacheState α) (key : String) (data : α) :
    (stateKeysOk st → mapHas st key = false → opts.maxSize ≤ st.length → st ≠ [] →
      ∃ q ∈ st,
        (∀ p ∈ st, q.2.hits ≤ p.2.hits)
        ∧ (∀ p ∈ st, p.2.hits = q.2.hits → q.2.timestamp ≤ p.2.timestamp)
        ∧ QueryCache.set opts now st key data
            = mapSet (mapDelete st q.1) key ⟨data, now, 0⟩)
    ∧ (mapHas st key = true ∨ st.length < opts.maxSize →
        QueryCache.set opts now st key data = mapSet st key ⟨data, now, 0⟩) := by
  constructor
  · intro hkeys hnew hcap hne
    obtain ⟨r, hscan, hmem, hall⟩ := evictScan_spec st hne
    have hkey_ne : r.1 ≠ "" := hkeys r hmem
    have hevict : evictLRU st = mapDelete st r.1 := by
      unfold evictLRU
      rw [hscan]
      show (if (r.1 == "") = true then st else mapDelete st r.1) = mapDelete st r.1
      rw [beq_eq_false_iff_ne.2 hkey_ne]
      simp
    refine ⟨r, hmem, ?_, ?_, ?_⟩
    · intro p hp
      rcases hall p hp with h | h
      · exact Nat.le_of_lt h
      · exact Nat.le_of_eq h.1
    · intro p hp heq
      rcases hall p hp with h | h
      · omega
      · exact h.2
    · unfold QueryCache.set
      rw [if_pos ⟨hcap, hnew⟩, hevict]
  · intro h
    unfold QueryCache.set
    rw [if_neg ?_]
    rcases h with h | h
    · intro hc
      rw [h] at hc
      exact absurd hc.2 (by simp)
    · intro hc
      omega

/-- Witness for the amended C2: a two-entry cache at capacity 2 where `a`
has one hit and `b` none, inserting the brand-new key `c` (the eviction
branch), and overwriting the existing key `a` (the no-eviction branch). -/
theorem eviction_policy_witness :
    (∃ q ∈ ([("a", ⟨10, 0, 1⟩), ("b", ⟨(20 : Nat), 1, 0⟩)] : CacheState Nat),
      (∀ p ∈ ([("a", ⟨10, 0, 1⟩), ("b", ⟨(20 : Nat), 1, 0⟩)] : CacheState Nat),
        q.2.hits ≤ p.2.hits)
      ∧ (∀ p ∈ ([("a", ⟨10, 0, 1⟩), ("b", ⟨(20 : Nat), 1, 0⟩)] : CacheState Nat),
          p.2.hits = q.2.hits → q.2.timestamp ≤ p.2.timestamp)
      ∧ QueryCache.set ⟨2, 1000⟩ 5 [("a", ⟨10, 0, 1⟩), ("b", ⟨20, 1, 0⟩)] "c" 30
          = mapSet (mapDelete [("a", ⟨10, 0, 1⟩), ("b", ⟨20, 1, 0⟩)] q.1) "c" ⟨30, 5, 0⟩)
    ∧ QueryCache.set ⟨2, 1000⟩ 5 [("a", ⟨10, 0, 1⟩), ("b", ⟨(20 : Nat), 1, 0⟩)] "a" 30
        = mapSet [("a", ⟨10, 0, 1⟩), ("b", ⟨20, 1, 0⟩)] "a" ⟨30, 5, 0⟩ :=
  ⟨(eviction_policy ⟨2, 1000⟩ 5 [("a", ⟨10, 0, 1⟩), ("b", ⟨20, 1, 0⟩)] "c" 30).1
      (by intro p hp; rcases List.mem_cons.1 hp with h | h
          · rw [h]; decide
          · rcases List.mem_cons.1 h with h' | h'
            · rw [h']; decide
            · simp at h')
      rfl (by decide) (by decide),
    (eviction_policy ⟨2, 1000⟩ 5 [("a", ⟨10, 0, 1⟩), ("b", ⟨20, 1, 0⟩)] "a" 30).2
      (Or.inl rfl)⟩

lemma length_filter_lt_of_mem {γ : Type} (p : γ → Bool) (l : List γ) (x : γ)
    (hx : x ∈ l) (hpx : p x = false) : (l.filter p).length < l.length := by
  induction l with
  | nil => simp at hx
  | cons a l ih =>
    rcases List.mem_cons.1 hx with h | h
    · subst h
      rw [List.filter_cons_of_neg (by simp [hpx])]
      exact Nat.lt_succ_of_le (List.length_filter_le _ _)
    · by_cases hpa : p a
      · rw [List.filter_cons_of_pos hpa]
        exact Nat.succ_lt_succ (ih h)
      · rw [List.filter_cons_of_neg hpa]
        exact Nat.lt_succ_of_lt (ih h)

lemma mapHas_false_iff {α : Type} (st : CacheState α) (key : String) :
    mapHas st key = false ↔ ∀ p ∈ st, p.1 ≠ key := by
  unfold mapHas mapGet
  cases hf : st.find? (fun p => p.1 == key) with
  | none =>
    rw [List.find?_eq_none] at hf
    constructor
    · intro _ p hp hpk
      exact hf p hp (by simp [hpk])
    · intro _
      rfl
  | some q =>
    have hq := List.find?_some hf
    have hqm : q ∈ st := List.mem_of_find?_eq_some hf
    constructor
    · intro h
      exact Bool.noConfusion h
    · intro h
      exact absurd (show q.1 = key by simpa using hq) (h q hqm)

lemma mem_mapSet {α : Type} (st : CacheState α) (key : String) (e : CacheEntry α)
    (p : String × CacheEntry α) (hp : p ∈ mapSet st key e) : p.1 = key ∨ p ∈ st := by
  unfold mapSet at hp
  by_cases hhas : mapHas st key
  · rw [if_pos hhas] at hp
    obtain ⟨q, hq, hfq⟩ := List.mem_map.1 hp
    by_cases hqk : q.1 == key
    · rw [if_pos hqk] at hfq
      left
      rw [← hfq]
    · rw [if_neg hqk] at hfq
      right
      rw [← hfq]
      exact hq
  · rw [if_neg hhas] at hp
    rcases List.mem_append.1 hp with h | h
    · right
      exact h
    · left
      rw [List.mem_singleton.1 h]

lemma length_mapSet_of_has {α : Type} (st : CacheState α) (key : String)
    (e : CacheEntry α) (h : mapHas st key = true) :
    (mapSet st key e).length = st.length := by
  unfold mapSet
  rw [if_pos h]
  exact List.length_map _ _

lemma length_mapSet_of_not_has {α : Type} (st : CacheState α) (key : String)
    (e : CacheEntry α) (h : mapHas st key = false) :
    (mapSet st key e).length = st.length + 1 := by
  unfold mapSet
  rw [if_neg (by simp [h])]
  simp

lemma mapGet_some_mem {α : Type} (st : CacheState α) (key : String)
    (e : CacheEntry α) (h : mapGet st key = some e) :
    (key, e) ∈ st ∧ mapHas st key = true := by
  unfold mapGet at h
  cases hf : st.find? (fun p => p.1 == key) with
  | none =>
    rw [hf] at h
    simp at h
  | some q =>
    rw [hf] at h
    have hq := List.find?_some hf
    have hqm : q ∈ st := List.mem_of_find?_eq_some hf
    have hqk : q.1 = key := by simpa using hq
    have hqe : q.2 = e := by simpa using h
    constructor
    · have : q = (key, e) := Prod.ext hqk hqe
      rw [← this]
      exact hqm
    · unfold mapHas mapGet
      rw [hf]
      rfl

lemma evictLRU_eq_delete {α : Type} (st : CacheState α) (hne : st ≠ [])
    (hkeys : stateKeysOk st) :
    ∃ r ∈ st, evictLRU st = mapDelete st r.1 := by
  obtain ⟨r, hscan, hmem, _⟩ := evictScan_spec st hne
  refine ⟨r, hmem, ?_⟩
  unfold evictLRU
  rw [hscan]
  show (if (r.1 == "") = true then st else mapDelete st r.1) = mapDelete st r.1
  rw [beq_eq_false_iff_ne.2 (hkeys r hmem)]
  simp

lemma set_preserves {α : Type} (opts : QueryCacheOptions) (hmax : 1 ≤ opts.maxSize)
    (now : Int) (key : String) (data : α) (hkey : key ≠ "") (st : CacheState α)
    (hkeys : stateKeysOk st) (hlen : st.length ≤ opts.maxSize) :
    stateKeysOk (QueryCache.set opts now st key data)
    ∧ (QueryCache.set opts now st key data).length ≤ opts.maxSize := by
  unfold QueryCache.set
  by_cases hc : opts.maxSize ≤ st.length ∧ mapHas st key = false
  · rw [if_pos hc]
    have hne : st ≠ [] := by
      intro h
      subst h
      have h1 := hc.1
      simp at h1
      omega
    obtain ⟨r, hmem, hevict⟩ := evictLRU_eq_delete st hne hkeys
    have hlt : (mapDelete st r.1).length < st.length := by
      unfold mapDelete
      exact length_filter_lt_of_mem _ st r hmem (by simp)
    have hkeys' : stateKeysOk (mapDelete st r.1) := fun p hp =>
      hkeys p (List.mem_of_mem_filter hp)
    have hnew' : mapHas (mapDelete st r.1) key = false := by
      rw [mapHas_false_iff]
      intro p hp
      exact (mapHas_false_iff st key).1 hc.2 p (List.mem_of_mem_filter hp)
    rw [hevict]
    constructor
    · intro p hp
      rcases mem_mapSet _ _ _ p hp with h | h
      · rw [h]
        exact hkey
      · exact hkeys' p h
    · rw [length_mapSet_of_not_has _ _ _ hnew']
      omega
  · rw [if_neg hc]
    constructor
    · intro p hp
      rcases mem_mapSet _ _ _ p hp with h | h
      · rw [h]
        exact hkey
      · exact hkeys p h
    · by_cases hhas : mapHas st key
      · rw [length_mapSet_of_has _ _ _ hhas]
        exact hlen
      · have hhas' : mapHas st key = false := by
          simpa using hhas
        rw [length_mapSet_of_not_has _ _ _ hhas']
        have hnc : ¬ opts.maxSize ≤ st.length := fun hle => hc ⟨hle, hhas'⟩
        omega

lemma get_preserves {α : Type} (opts : QueryCacheOptions) (now : Int)
    (key : String) (st : CacheState α) (hkeys : stateKeysOk st) :
    stateKeysOk (QueryCache.get opts now st key).2
    ∧ (QueryCache.get opts now st key).2.length ≤ st.length := by
  cases hf : mapGet st key with
  | none =>
    have hget : QueryCache.get opts now st key = (none, st) := by
      unfold QueryCache.get
      rw [hf]
    rw [hget]
    exact ⟨hkeys, le_refl _⟩
  | some e =>
    by_cases hexp : isExpired opts now e
    · have hget : QueryCache.get opts now st key = (none, mapDelete st key) := by
        unfold QueryCache.get
        rw [hf]
        simp [hexp]
      rw [hget]
      exact ⟨fun p hp => hkeys p (List.mem_of_mem_filter hp),
        List.length_filter_le _ _⟩
    · have hget : QueryCache.get opts now st key
          = (some e.data, mapSet st key ⟨e.data, e.timestamp, e.hits + 1⟩) := by
        unfold QueryCache.get
        rw [hf]
        simp [hexp]
      rw [hget]
      obtain ⟨hkm, hhas⟩ := mapGet_some_mem st key e hf
      have hkeyne : key ≠ "" := hkeys (key, e) hkm
      constructor
      · intro p hp
        rcases mem_mapSet _ _ _ p hp with h | h
        · rw [h]
          exact hkeyne
        · exact hkeys p h
      · exact le_of_eq (length_mapSet_of_has st key _ hhas)

lemma has_preserves {α : Type} (opts : QueryCacheOptions) (now : Int)
    (key : String) (st : CacheState α) (hkeys : stateKeysOk st) :
    stateKeysOk (QueryCache.has opts now st key).2
    ∧ (QueryCache.has opts now st key).2.length ≤ st.length := by
  cases hf : mapGet st key with
  | none =>
    have hh : QueryCache.has opts now st key = (false, st) := by
      unfold QueryCache.has
      rw [hf]
    rw [hh]
    exact ⟨hkeys, le_refl _⟩
  | some e =>
    by_cases hexp : isExpired opts now e
    · have hh : QueryCache.has opts now st key = (false, mapDelete st key) := by
        unfold QueryCache.has
        rw [hf]
        simp [hexp]
      rw [hh]
      exact ⟨fun p hp => hkeys p (List.mem_of_mem_filter hp),
        List.length_filter_le _ _⟩
    · have hh : QueryCache.has opts now st key = (true, st) := by
        unfold QueryCache.has
        rw [hf]
        simp [hexp]
      rw [hh]
      exact ⟨hkeys, le_refl _⟩

lemma delete_fold_preserves {α γ : Type} (c : γ → Bool) (k : γ → String)
    (l : List γ) :
    ∀ acc : Nat × CacheState α,
      (∀ q ∈ (l.foldl
          (fun acc x => if c x then (acc.1 + 1, mapDelete acc.2 (k x)) else acc)
          acc).2, q ∈ acc.2)
      ∧ (l.foldl
          (fun acc x => if c x then (acc.1 + 1, mapDelete acc.2 (k x)) else acc)
          acc).2.length ≤ acc.2.length := by
  induction l with
  | nil => exact fun acc => ⟨fun q hq => hq, le_refl _⟩
  | cons x l ih =>
    intro acc
    rw [List.foldl_cons]
    by_cases hcx : c x
    · rw [if_pos hcx]
      obtain ⟨hmem, hlen⟩ := ih (acc.1 + 1, mapDelete acc.2 (k x))
      exact ⟨fun q hq => List.mem_of_mem_filter (hmem q hq),
        le_trans hlen (List.length_filter_le _ _)⟩
    · rw [if_neg hcx]
      exact ih acc

lemma prune_preserves {α : Type} (opts : QueryCacheOptions) (now : Int)
    (st : CacheState α) (hkeys : stateKeysOk st) :
    stateKeysOk (QueryCache.prune opts now st).2
    ∧ (QueryCache.prune opts now st).2.length ≤ st.length := by
  obtain ⟨hmem, hlen⟩ :=
    delete_fold_preserves (fun p : String × CacheEntry α => isExpired opts now p.2)
      (fun p => p.1) st (0, st)
  exact ⟨fun p hp => hkeys p (hmem p hp), hlen⟩

lemma invalidate_preserves {α : Type} (test : String → Bool)
    (st : CacheState α) (hkeys : stateKeysOk st) :
    stateKeysOk (QueryCache.invalidatePattern test st).2
    ∧ (QueryCache.invalidatePattern test st).2.length ≤ st.length := by
  obtain ⟨hmem, hlen⟩ :=
    delete_fold_preserves test (fun key => key) (st.map Prod.fst) (0, st)
  exact ⟨fun p hp => hkeys p (hmem p hp), hlen⟩

lemma getOrSet_preserves {β : Type} (opts : QueryCacheOptions)
    (hmax : 1 ≤ opts.maxSize) (now : Int) (key : String) (hkey : key ≠ "")
    (factoryResult : Option β) (st : CacheState (Option β))
    (hkeys : stateKeysOk st) (hlen : st.length ≤ opts.maxSize) :
    stateKeysOk (QueryCache.getOrSet opts now st key factoryResult).2.2
    ∧ (QueryCache.getOrSet opts now st key factoryResult).2.2.length
        ≤ opts.maxSize := by
  obtain ⟨hgk, hgl⟩ := get_preserves opts now key st hkeys
  have hglen : (QueryCache.get opts now st key).2.length ≤ opts.maxSize :=
    le_trans hgl hlen
  have heq : QueryCache.getOrSet opts now st key factoryResult
      = match (QueryCache.get opts now st key).1.join with
        | some v => (some v, false, (QueryCache.get opts now st key).2)
        | none => (factoryResult, true,
            QueryCache.set opts now (QueryCache.get opts now st key).2 key factoryResult) :=
    rfl
  rw [heq]
  cases hj : (QueryCache.get opts now st key).1.join with
  | some v => exact ⟨hgk, hglen⟩
  | none => exact set_preserves opts hmax now key factoryResult hkey _ hgk hglen

lemma cacheStep_preserves {β : Type} (opts : QueryCacheOptions)
    (hmax : 1 ≤ opts.maxSize) (op : CacheOp β) (hop : opKeysOk op)
    (st : CacheState (Option β)) (hkeys : stateKeysOk st)
    (hlen : st.length ≤ opts.maxSize) :
    stateKeysOk (cacheStep opts op st)
    ∧ (cacheStep opts op st).length ≤ opts.maxSize := by
  cases op with
  | get now key =>
    obtain ⟨h1, h2⟩ := get_preserves opts now key st hkeys
    exact ⟨h1, le_trans h2 hlen⟩
  | set now key data =>
    exact set_preserves opts hmax now key data hop st hkeys hlen
  | has now key =>
    obtain ⟨h1, h2⟩ := has_preserves opts now key st hkeys
    exact ⟨h1, le_trans h2 hlen⟩
  | del key =>
    exact ⟨fun p hp => hkeys p (List.mem_of_mem_filter hp),
      le_trans (List.length_filter_le _ _) hlen⟩
  | clear =>
    exact ⟨fun p hp => absurd hp (List.not_mem_nil p), Nat.zero_le _⟩
  | prune now =>
    obtain ⟨h1, h2⟩ := prune_preserves opts now st hkeys
    exact ⟨h1, le_trans h2 hlen⟩
  | invalidate test =>
    obtain ⟨h1, h2⟩ := invalidate_preserves test st hkeys
    exact ⟨h1, le_trans h2 hlen⟩
  | getOrSet now key f =>
    exact getOrSet_preserves opts hmax now key hop f st hkeys hlen

lemma cacheRun_inv {β : Type} (opts : QueryCacheOptions) (hmax : 1 ≤ opts.maxSize)
    (ops : List (CacheOp β)) (hops : ∀ op ∈ ops, opKeysOk op) :
    stateKeysOk (cacheRun opts ops) ∧ (cacheRun opts ops).length ≤ opts.maxSize := by
  suffices h : ∀ (ops : List (CacheOp β)) (st : CacheState (Option β)),
      stateKeysOk st → st.length ≤ opts.maxSize → (∀ op ∈ ops, opKeysOk op) →
      stateKeysOk (ops.foldl (fun st op => cacheStep opts op st) st)
      ∧ (ops.foldl (fun st op => cacheStep opts op st) st).length ≤ opts.maxSize by
    exact h ops [] (fun p hp => absurd hp (List.not_mem_nil p)) (by simp) hops
  intro ops
  induction ops with
  | nil => exact fun st h1 h2 _ => ⟨h1, h2⟩
  | cons op ops ih =>
    intro st h1 h2 hops
    rw [List.foldl_cons]
    obtain ⟨h1', h2'⟩ := cacheStep_preserves opts hmax op
      (hops op (List.mem_cons_self _ _)) st h1 h2
    exact ih _ h1' h2' (fun o ho => hops o (List.mem_cons_of_mem _ ho))

/-- C3 counterexample: two concrete violations of the size bound.  With
`maxSize = 0`, a single `set` on the empty cache leaves one entry.  With
`maxSize = 1`, a cache holding the empty-string key does not evict on
insertion at capacity (JS truthiness of `if (lruKey)`), leaving two
entries. -/
theorem cache_size_counterexample :
    (cacheStep ⟨0, 1000⟩ (CacheOp.set 0 "a" (some (1 : Nat)))
        (cacheRun ⟨0, 1000⟩ [])).length > 0
    ∧ (cacheStep ⟨1, 1000⟩ (CacheOp.set 1 "x" (some (2 : Nat)))
        (cacheRun ⟨1, 1000⟩ [CacheOp.set 0 "" (some 1)])).length > 1 :=
  ⟨by decide, by decide⟩

/-- C3 (amended): for every configured maximum size of at least one and
every operation sequence that never uses the empty string as an insertion
key, the number of entries after any `set` completes never exceeds the
configured maximum. -/
theorem cache_size_bounded {β : Type} (opts : QueryCacheOptions)
    (hmax : 1 ≤ opts.maxSize) (ops : List (CacheOp β))
    (hops : ∀ op ∈ ops, opKeysOk op) (now : Int) (key : String)
    (hkey : key ≠ "") (data : Option β) :
    (cacheStep opts (CacheOp.set now key data) (cacheRun opts ops)).length
      ≤ opts.maxSize := by
  obtain ⟨h1, h2⟩ := cacheRun_inv opts hmax ops hops
  exact (set_preserves opts hmax now key data hkey _ h1 h2).2

/-- Witness for the amended C3: capacity 1, filling the cache with `a`,
touching it, then inserting `b`. -/
theorem cache_size_bounded_witness :
    (cacheStep ⟨1, 1000⟩ (CacheOp.set 2 "b" (some (2 : Nat)))
      (cacheRun ⟨1, 1000⟩ [CacheOp.set 0 "a" (some 1), CacheOp.get 1 "a"])).length
      ≤ (1 : Nat) := by
  apply cache_size_bounded ⟨1, 1000⟩ (by decide)
  · intro op hop
    rcases List.mem_cons.1 hop with h | h
    · subst h
      show ("a" : String) ≠ ""
      decide
    · rcases List.mem_cons.1 h with h' | h'
      · subst h'
        exact trivial
      · exact absurd h' (List.not_mem_nil _)
  · decide
